import Mathlib

/-!
Shallow embedding of the delta-detection and alerting engine of
`notifier_playwright.py` (repository `kt_bot1`).

Modelling conventions:
* Python `int` metrics (`clicks`, `uniq`, `conversions`, `sales`) become `Int`;
  Python `float` revenue metrics become `Rat` (the engine only compares,
  takes maxima of and subtracts these values, all of which are exact).
* A Python `dict` keyed by strings becomes an insertion-ordered association
  list `List (String × α)`; `dget` is dictionary lookup and `dinsert` is
  dictionary assignment (update in place, append for a fresh key), matching
  CPython's insertion-order semantics.
* The side effects of `main` (Telegram sends via `tg_send`, state writes via
  `save_state`) are modelled as an ordered trace of `Event`s; the textual
  formatting of a message is abstracted into the structured `Alert`/`Msg`
  payloads that determine it.
* `kyiv_today_str()` is a run parameter `today`; `fetch_rows()`'s result is a
  run parameter `rows` (the claims quantify over the fetched row set).
-/

set_option autoImplicit false

namespace KtBot

/-- A normalized report row, as built by `parse_report_from_json` /
`parse_report_from_html` / `parse_report_from_ag_grid`: the key `k` is the
concatenation of the four dimension values, and all six metric fields are
always populated (missing values coerce to `0`). -/
structure Row where
  k : String
  campaign : String
  country : String
  external_id : String
  creative_id : String
  clicks : Int
  uniq : Int
  conversions : Int
  sales : Int
  deposit_revenue : Rat
  sale_revenue : Rat
deriving DecidableEq

/-- The persisted state, as written by `save_state`: a date string and a
dictionary from row key to row. -/
structure State where
  date : String
  rows : List (String × Row)
deriving DecidableEq

/-- The sensitivity constant `EPS = 0.009` declared at the top of the
source file. -/
def EPS : Rat := 9 / 1000

/-- Python dictionary lookup `m.get(k)` on a string-keyed dict. -/
def dget {α : Type} : List (String × α) → String → Option α
  | [], _ => none
  | p :: m, k => if p.1 = k then some p.2 else dget m k

/-- Python dictionary assignment `m[k] = v`: update in place if the key is
present (keeping its position), otherwise append at the end. -/
def dinsert {α : Type} : List (String × α) → String → α → List (String × α)
  | [], k, v => [(k, v)]
  | p :: m, k, v => if p.1 = k then (k, v) :: m else p :: dinsert m k v

/-- Folding dictionary assignments of a row list into a dict, as done by the
dict comprehension `{r["k"]: r for r in rows}` and by the `new_map[k] = r`
assignments of the compare loop. -/
def insertAll (init : List (String × Row)) (rows : List Row) : List (String × Row) :=
  rows.foldl (fun m r => dinsert m r.k r) init

/-- The metric merge of `aggregate_rows_max`: keep `a`'s key and dimension
fields, take the per-metric maximum of the two rows. -/
def mergeRow (a r : Row) : Row :=
  { a with
    clicks := max a.clicks r.clicks
    uniq := max a.uniq r.uniq
    conversions := max a.conversions r.conversions
    sales := max a.sales r.sales
    deposit_revenue := max a.deposit_revenue r.deposit_revenue
    sale_revenue := max a.sale_revenue r.sale_revenue }

/-- One step of the `aggregate_rows_max` loop: first occurrence of a key is
stored as-is (`acc[k] = dict(r)`); a later occurrence is max-merged into the
stored row. -/
def aggStep (acc : List (String × Row)) (r : Row) : List (String × Row) :=
  match dget acc r.k with
  | none => acc ++ [(r.k, r)]
  | some a => dinsert acc r.k (mergeRow a r)

/-- Function `aggregate_rows_max(rows)`: collapse duplicate keys within one capture,
taking per-metric maxima; returns `list(acc.values())`. -/
def aggregate_rows_max (rows : List Row) : List Row :=
  (rows.foldl aggStep []).map Prod.snd

/-- A structured alert block, abstracting the formatted text appended to
`conv_msgs` / `sale_msgs` in `main`. -/
inductive Alert where
  /-- A `CONVERSION ALERT` block: dimensions, old and new conversion counts
  (the brand-new-key branch prints `0 → n`, i.e. `oldc = 0`). -/
  | conv (campaign country external creative : String) (oldc newc : Int)
  /-- A `SALE ALERT` block for a key present in the prior snapshot: dimensions,
  old and new sale counts, and the reported revenue delta `new_rev - old_rev`. -/
  | sale (campaign country external creative : String) (olds news : Int) (revDelta : Rat)
  /-- A `SALE ALERT` block for a brand-new key: dimensions, new sale count, and
  the reported absolute revenue `new_rev`. -/
  | saleNew (campaign country external creative : String) (news : Int) (rev : Rat)
deriving DecidableEq

/-- A message handed to `tg_send`, abstracting its text. -/
inductive Msg where
  /-- The `"⚠️ Keitaro: no data"` notification. -/
  | noData
  /-- The single combined alert message `"\n\n".join(conv_msgs + sale_msgs)`. -/
  | alerts (blocks : List Alert)
deriving DecidableEq

/-- An observable side effect of one run of `main`, in program order. -/
inductive Event where
  /-- A call to `tg_send`. -/
  | send (m : Msg)
  /-- A call to `save_state`. -/
  | save (st : State)
deriving DecidableEq

/-- The conversion alert blocks the compare loop appends for one fetched row
`r`: against the prior row when the key is present (`if old:` branch), against
`0` when it is absent. -/
def convAlertsFor (prev_rows : List (String × Row)) (r : Row) : List Alert :=
  match dget prev_rows r.k with
  | some old =>
      if r.conversions - old.conversions > 0 then
        [Alert.conv r.campaign r.country r.external_id r.creative_id old.conversions r.conversions]
      else []
  | none =>
      if r.conversions > 0 then
        [Alert.conv r.campaign r.country r.external_id r.creative_id 0 r.conversions]
      else []

/-- The sale alert blocks the compare loop appends for one fetched row `r`.
For a key present in the prior snapshot the reported revenue on each side is
`max(deposit_revenue, sale_revenue)` and the block carries their difference. -/
def saleAlertsFor (prev_rows : List (String × Row)) (r : Row) : List Alert :=
  match dget prev_rows r.k with
  | some old =>
      if r.sales - old.sales > 0 then
        [Alert.sale r.campaign r.country r.external_id r.creative_id old.sales r.sales
          (max r.deposit_revenue r.sale_revenue - max old.deposit_revenue old.sale_revenue)]
      else []
  | none =>
      if r.sales > 0 then
        [Alert.saleNew r.campaign r.country r.external_id r.creative_id r.sales
          (max r.deposit_revenue r.sale_revenue)]
      else []

/-- One iteration of the `for r in rows:` loop of `main`'s compare phase,
carried over the accumulator `(new_map, conv_msgs, sale_msgs)`. -/
def compareStep (prev_rows : List (String × Row))
    (acc : List (String × Row) × List Alert × List Alert) (r : Row) :
    List (String × Row) × List Alert × List Alert :=
  (dinsert acc.1 r.k r,
   acc.2.1 ++ convAlertsFor prev_rows r,
   acc.2.2 ++ saleAlertsFor prev_rows r)

/-- The event trace of one invocation of `main`, given the loaded state, the
current date string (`kyiv_today_str()`), and the fetched-and-aggregated rows
returned by `fetch_rows()`. Mirrors `main` branch for branch: the empty-fetch
guard, the new-day baseline reset, and the compare loop followed by the
conditional `tg_send` and the final `save_state`. -/
def main (prev : State) (today : String) (rows : List Row) : List Event :=
  if rows = [] then
    if prev.rows = [] then [Event.send Msg.noData] else []
  else if prev.date ≠ today then
    [Event.save ⟨today, insertAll [] rows⟩]
  else
    let res := rows.foldl (compareStep prev.rows) ([], [], [])
    let blocks := res.2.1 ++ res.2.2
    (if blocks = [] then [] else [Event.send (Msg.alerts blocks)]) ++
      [Event.save ⟨today, res.1⟩]

/-- All alert blocks contained in the messages of an event trace. -/
def sentAlerts (evts : List Event) : List Alert :=
  evts.flatMap fun e =>
    match e with
    | Event.send (Msg.alerts bs) => bs
    | _ => []

/-- All states written by `save_state` in an event trace. -/
def savesOf (evts : List Event) : List State :=
  evts.filterMap fun e =>
    match e with
    | Event.save s => some s
    | _ => none

/-- The persisted state after a trace of events, starting from `st`: each
`save` replaces it, sends leave it unchanged. -/
def stateAfter (st : State) (evts : List Event) : State :=
  evts.foldl (fun s e => match e with | Event.save s2 => s2 | _ => s) st

/-! ### Dictionary lemmas -/

theorem dget_dinsert {α : Type} (m : List (String × α)) (k k' : String) (v : α) :
    dget (dinsert m k v) k' = if k = k' then some v else dget m k' := by
  induction m with
  | nil => by_cases h : k = k' <;> simp [dinsert, dget, h]
  | cons p m ih =>
    by_cases h1 : p.1 = k
    · by_cases h2 : k = k'
      · simp [dinsert, dget, h1, h2]
      · have h3 : p.1 ≠ k' := by rw [h1]; exact h2
        simp [dinsert, dget, h1, h2, h3]
    · by_cases h2 : p.1 = k' <;> by_cases h3 : k = k' <;>
        simp_all [dinsert, dget, h1, h2, h3]

theorem dget_eq_none_iff {α : Type} (m : List (String × α)) (k : String) :
    dget m k = none ↔ ∀ p ∈ m, p.1 ≠ k := by
  induction m with
  | nil => simp [dget]
  | cons p m ih => by_cases h : p.1 = k <;> simp_all [dget, h]

theorem dget_isSome_iff {α : Type} (m : List (String × α)) (k : String) :
    (dget m k).isSome ↔ ∃ p ∈ m, p.1 = k := by
  induction m with
  | nil => simp [dget]
  | cons p m ih => by_cases h : p.1 = k <;> simp_all [dget, h]

theorem dget_mem {α : Type} (m : List (String × α)) (k : String) (v : α)
    (h : dget m k = some v) : (k, v) ∈ m := by
  induction m with
  | nil => simp [dget] at h
  | cons p m ih =>
    by_cases h1 : p.1 = k
    · simp [dget, h1] at h
      have hp : p = (k, v) := by cases p; simp_all
      exact hp ▸ List.mem_cons_self _ _
    · simp [dget, h1] at h
      exact List.mem_cons_of_mem _ (ih h)

theorem dget_of_mem_nodup {α : Type} (m : List (String × α)) (k : String) (v : α)
    (h : (k, v) ∈ m) (hnd : (m.map Prod.fst).Nodup) : dget m k = some v := by
  induction m with
  | nil => simp at h
  | cons p m ih =>
    simp only [List.map_cons, List.nodup_cons] at hnd
    rcases List.mem_cons.mp h with h | h
    · simp [← h, dget]
    · have hk : p.1 ≠ k := by
        intro he
        exact hnd.1 (he ▸ (List.mem_map.mpr ⟨(k, v), h, rfl⟩))
      simp [dget, hk]
      exact ih h hnd.2

theorem mem_dinsert {α : Type} (m : List (String × α)) (k : String) (v : α) (p : String × α)
    (h : p ∈ dinsert m k v) : p = (k, v) ∨ p ∈ m := by
  induction m with
  | nil => simp [dinsert] at h; simp [h]
  | cons q m ih =>
    by_cases h1 : q.1 = k
    · simp [dinsert, h1] at h
      rcases h with h | h
      · left; simp [h]
      · right; exact List.mem_cons_of_mem _ h
    · simp only [dinsert, h1, if_false, List.mem_cons] at h
      rcases h with h | h
      · right; exact List.mem_cons.mpr (Or.inl h)
      · rcases ih h with h | h
        · left; exact h
        · right; exact List.mem_cons_of_mem _ h

theorem keys_dinsert_of_isSome {α : Type} (m : List (String × α)) (k : String) (v : α)
    (h : (dget m k).isSome) : (dinsert m k v).map Prod.fst = m.map Prod.fst := by
  induction m with
  | nil => simp [dget] at h
  | cons p m ih =>
    by_cases h1 : p.1 = k
    · simp [dinsert, h1]
    · simp only [dget, h1, if_false] at h
      simp [dinsert, h1, ih h]

theorem dget_append {α : Type} (m₁ m₂ : List (String × α)) (k : String) :
    dget (m₁ ++ m₂) k =
      match dget m₁ k with
      | some v => some v
      | none => dget m₂ k := by
  induction m₁ with
  | nil => simp [dget]
  | cons p m ih => by_cases h : p.1 = k <;> simp [dget, h, ih]

/-! ### `insertAll` lemmas -/

theorem dget_insertAll_of_ne (init : List (String × Row)) (rows : List Row) (k : String)
    (h : ∀ r ∈ rows, r.k ≠ k) : dget (insertAll init rows) k = dget init k := by
  induction rows generalizing init with
  | nil => rfl
  | cons r rows ih =>
    have : dget (insertAll (dinsert init r.k r) rows) k = dget (dinsert init r.k r) k :=
      ih _ (fun r' hr' => h r' (List.mem_cons_of_mem _ hr'))
    calc dget (insertAll init (r :: rows)) k
        = dget (insertAll (dinsert init r.k r) rows) k := rfl
      _ = dget (dinsert init r.k r) k := this
      _ = dget init k := by
          rw [dget_dinsert]
          simp [h r (List.mem_cons_self r rows)]

theorem dget_insertAll_self (init : List (String × Row)) (rows : List Row) (r : Row)
    (hr : r ∈ rows) (hnd : (rows.map Row.k).Nodup) :
    dget (insertAll init rows) r.k = some r := by
  induction rows generalizing init with
  | nil => simp at hr
  | cons r0 rows ih =>
    simp only [List.map_cons, List.nodup_cons] at hnd
    rcases List.mem_cons.mp hr with h | h
    · subst h
      have hforall : ∀ r' ∈ rows, r'.k ≠ r.k := by
        intro r' hr' he
        exact hnd.1 (he ▸ (List.mem_map.mpr ⟨r', hr', rfl⟩))
      calc dget (insertAll init (r :: rows)) r.k
          = dget (dinsert init r.k r) r.k := dget_insertAll_of_ne _ _ _ hforall
        _ = some r := by rw [dget_dinsert]; simp
    · exact ih _ h hnd.2

theorem isSome_dget_insertAll (init : List (String × Row)) (rows : List Row) (k : String) :
    (dget (insertAll init rows) k).isSome ↔ (∃ r ∈ rows, r.k = k) ∨ (dget init k).isSome := by
  induction rows generalizing init with
  | nil => simp [insertAll]
  | cons r rows ih =>
    calc (dget (insertAll init (r :: rows)) k).isSome
        ↔ (∃ r' ∈ rows, r'.k = k) ∨ (dget (dinsert init r.k r) k).isSome := ih _
      _ ↔ (∃ r' ∈ r :: rows, r'.k = k) ∨ (dget init k).isSome := by
          rw [dget_dinsert]
          by_cases h : r.k = k
          · simp [h]
          · simp only [h, if_false, List.mem_cons]
            constructor
            · rintro (⟨r', hr', he⟩ | hs)
              · exact Or.inl ⟨r', Or.inr hr', he⟩
              · exact Or.inr hs
            · rintro (⟨r', hr' | hr', he⟩ | hs)
              · exact absurd (hr' ▸ he) h
              · exact Or.inl ⟨r', hr', he⟩
              · exact Or.inr hs

/-! ### Compare-phase characterization -/

/-- All alert blocks the compare phase produces, in source order: the
conversion blocks for each row in fetch order, then the sale blocks. -/
def allAlerts (prev_rows : List (String × Row)) (rows : List Row) : List Alert :=
  rows.flatMap (convAlertsFor prev_rows) ++ rows.flatMap (saleAlertsFor prev_rows)

theorem compare_foldl (prev_rows : List (String × Row)) (rows : List Row)
    (acc : List (String × Row) × List Alert × List Alert) :
    rows.foldl (compareStep prev_rows) acc =
      (insertAll acc.1 rows,
       acc.2.1 ++ rows.flatMap (convAlertsFor prev_rows),
       acc.2.2 ++ rows.flatMap (saleAlertsFor prev_rows)) := by
  induction rows generalizing acc with
  | nil => simp [insertAll]
  | cons r rows ih =>
    calc (r :: rows).foldl (compareStep prev_rows) acc
        = rows.foldl (compareStep prev_rows) (compareStep prev_rows acc r) := rfl
      _ = _ := by simp [ih, compareStep, insertAll]

theorem main_compare (prev : State) (today : String) (rows : List Row)
    (hne : rows ≠ []) (hd : prev.date = today) :
    main prev today rows =
      (if allAlerts prev.rows rows = [] then []
        else [Event.send (Msg.alerts (allAlerts prev.rows rows))]) ++
        [Event.save ⟨today, insertAll [] rows⟩] := by
  simp only [main, hne, if_false, hd, ne_eq, not_true_eq_false, ite_false]
  rw [compare_foldl]
  simp [allAlerts]

theorem main_baseline (prev : State) (today : String) (rows : List Row)
    (hne : rows ≠ []) (hd : prev.date ≠ today) :
    main prev today rows = [Event.save ⟨today, insertAll [] rows⟩] := by
  simp [main, hne, hd]

theorem main_empty (prev : State) (today : String) :
    main prev today [] = if prev.rows = [] then [Event.send Msg.noData] else [] := by
  simp [main]

theorem sentAlerts_main_compare (prev : State) (today : String) (rows : List Row)
    (hne : rows ≠ []) (hd : prev.date = today) :
    sentAlerts (main prev today rows) = allAlerts prev.rows rows := by
  rw [main_compare prev today rows hne hd]
  by_cases h : allAlerts prev.rows rows = [] <;> simp [h, sentAlerts]

theorem savesOf_main_compare (prev : State) (today : String) (rows : List Row)
    (hne : rows ≠ []) (hd : prev.date = today) :
    savesOf (main prev today rows) = [⟨today, insertAll [] rows⟩] := by
  rw [main_compare prev today rows hne hd]
  by_cases h : allAlerts prev.rows rows = [] <;> simp [h, savesOf]

/-! ### Aggregator characterization -/

/-- Merge one more observed row into the optional accumulator entry for its
key: first sight stores the row, later sights max-merge. -/
def mergeInto (o : Option Row) (r : Row) : Option Row :=
  match o with
  | none => some r
  | some a => some (mergeRow a r)

/-- Max-merge a list of rows into an initial row. -/
def mergeAll (a : Row) (l : List Row) : Row :=
  l.foldl mergeRow a

theorem dget_aggStep (acc : List (String × Row)) (r : Row) (k : String) :
    dget (aggStep acc r) k =
      if r.k = k then mergeInto (dget acc k) r else dget acc k := by
  unfold aggStep
  cases h : dget acc r.k with
  | none =>
    rw [dget_append]
    by_cases hk : r.k = k
    · subst hk
      rw [h]
      simp [dget, mergeInto]
    · cases hg : dget acc k with
      | none => simp [hk, dget, hg]
      | some v => simp [hk, hg]
  | some a =>
    rw [dget_dinsert]
    by_cases hk : r.k = k
    · subst hk
      simp [h, mergeInto]
    · simp [hk]

theorem dget_agg_foldl (rows : List Row) (acc : List (String × Row)) (k : String) :
    dget (rows.foldl aggStep acc) k =
      (rows.filter (fun r => r.k = k)).foldl mergeInto (dget acc k) := by
  induction rows generalizing acc with
  | nil => simp
  | cons r rows ih =>
    by_cases hk : r.k = k
    · calc dget ((r :: rows).foldl aggStep acc) k
          = dget (rows.foldl aggStep (aggStep acc r)) k := rfl
        _ = (rows.filter (fun r => r.k = k)).foldl mergeInto (dget (aggStep acc r) k) := ih _
        _ = _ := by rw [dget_aggStep]; simp [hk]
    · calc dget ((r :: rows).foldl aggStep acc) k
          = (rows.filter (fun r => r.k = k)).foldl mergeInto (dget (aggStep acc r) k) := ih _
        _ = _ := by rw [dget_aggStep]; simp [hk]

theorem foldl_mergeInto_some (a : Row) (l : List Row) :
    l.foldl mergeInto (some a) = some (mergeAll a l) := by
  induction l generalizing a with
  | nil => rfl
  | cons r l ih => simp only [List.foldl_cons, mergeInto, mergeAll] at *; exact ih _

/-- The pair invariant of the aggregation accumulator: every stored row
carries its own key, and stored keys are distinct. -/
theorem agg_inv (rows : List Row) (acc : List (String × Row))
    (h1 : ∀ p ∈ acc, (p.2).k = p.1) (h2 : (acc.map Prod.fst).Nodup) :
    (∀ p ∈ rows.foldl aggStep acc, (p.2).k = p.1) ∧
      ((rows.foldl aggStep acc).map Prod.fst).Nodup := by
  induction rows generalizing acc with
  | nil => exact ⟨h1, h2⟩
  | cons r rows ih =>
    have hstep : (∀ p ∈ aggStep acc r, (p.2).k = p.1) ∧
        ((aggStep acc r).map Prod.fst).Nodup := by
      unfold aggStep
      cases h : dget acc r.k with
      | none =>
        constructor
        · intro p hp
          rcases List.mem_append.mp hp with hp | hp
          · exact h1 p hp
          · simp at hp
            simp [hp]
        · have hnotin : r.k ∉ acc.map Prod.fst := by
            intro hmem
            rcases List.mem_map.mp hmem with ⟨p, hp, he⟩
            exact (dget_eq_none_iff acc r.k).mp h p hp he
          simp [List.nodup_append, h2, hnotin]
      | some a =>
        constructor
        · intro p hp
          rcases mem_dinsert _ _ _ _ hp with hp | hp
          · have hak : a.k = r.k := h1 (r.k, a) (dget_mem _ _ _ h)
            have : (mergeRow a r).k = a.k := rfl
            simp [hp, this, hak]
          · exact h1 p hp
        · rw [keys_dinsert_of_isSome _ _ _ (by simp [h])]
          exact h2
    exact ih _ hstep.1 hstep.2

/-- Predicate stating that `x` is the maximum of the list `l`: it occurs in
`l` and bounds it. -/
def IsMaxOf {α : Type} [LinearOrder α] (x : α) (l : List α) : Prop :=
  x ∈ l ∧ ∀ y ∈ l, y ≤ x

theorem le_foldl_max {α : Type} [LinearOrder α] (l : List α) (a : α) :
    a ≤ l.foldl max a := by
  induction l generalizing a with
  | nil => exact le_refl a
  | cons b l ih => exact le_trans (le_max_left a b) (ih (max a b))

theorem isMaxOf_foldl_max {α : Type} [LinearOrder α] (x : α) (l : List α) :
    IsMaxOf (l.foldl max x) (x :: l) := by
  induction l generalizing x with
  | nil => exact ⟨by simp, by simp⟩
  | cons b l ih =>
    have hmem : (l.foldl max (max x b)) ∈ (max x b) :: l := (ih (max x b)).1
    have hub : ∀ y ∈ (max x b) :: l, y ≤ l.foldl max (max x b) := (ih (max x b)).2
    simp only [IsMaxOf, List.foldl_cons]
    constructor
    · rcases List.mem_cons.mp hmem with h | h
      · rcases max_choice x b with hc | hc
        · rw [h, hc]; exact List.mem_cons_self _ _
        · rw [h, hc]; exact List.mem_cons_of_mem _ (List.mem_cons_self _ _)
      · exact List.mem_cons_of_mem _ (List.mem_cons_of_mem _ h)
    · intro y hy
      rcases List.mem_cons.mp hy with h | h
      · exact le_trans (h ▸ le_max_left x b) (hub _ (List.mem_cons_self _ _))
      · rcases List.mem_cons.mp h with h | h
        · exact le_trans (h ▸ le_max_right x b) (hub _ (List.mem_cons_self _ _))
        · exact hub _ (List.mem_cons_of_mem _ h)

theorem mergeAll_field {α : Type} (f : Row → α) [Max α]
    (hf : ∀ a r, f (mergeRow a r) = max (f a) (f r)) (a : Row) (l : List Row) :
    f (mergeAll a l) = (l.map f).foldl max (f a) := by
  induction l generalizing a with
  | nil => rfl
  | cons r l ih =>
    calc f (mergeAll a (r :: l)) = f (mergeAll (mergeRow a r) l) := rfl
      _ = (l.map f).foldl max (f (mergeRow a r)) := ih _
      _ = ((r :: l).map f).foldl max (f a) := by rw [hf]; rfl

theorem mergeAll_dims (a : Row) (l : List Row) :
    (mergeAll a l).k = a.k ∧ (mergeAll a l).campaign = a.campaign ∧
      (mergeAll a l).country = a.country ∧ (mergeAll a l).external_id = a.external_id ∧
      (mergeAll a l).creative_id = a.creative_id := by
  induction l generalizing a with
  | nil => exact ⟨rfl, rfl, rfl, rfl, rfl⟩
  | cons r l ih => exact ih (mergeRow a r)

/-- Claim C3: for every sequence of rows observed within one capture,
`aggregate_rows_max` outputs at most one row per key; for every output row and
every metric (clicks, uniq, conversions, sales, deposit_revenue, sale_revenue)
the merged value equals the maximum of that metric over all input rows with
that key — never the sum, never the last value seen — and the dimension values
are taken from one constituent row with that key. -/
theorem C3_aggregator_max_merge (rows : List Row) :
    ((aggregate_rows_max rows).map Row.k).Nodup ∧
    ∀ o ∈ aggregate_rows_max rows,
      IsMaxOf o.clicks ((rows.filter (fun r => r.k = o.k)).map Row.clicks) ∧
      IsMaxOf o.uniq ((rows.filter (fun r => r.k = o.k)).map Row.uniq) ∧
      IsMaxOf o.conversions ((rows.filter (fun r => r.k = o.k)).map Row.conversions) ∧
      IsMaxOf o.sales ((rows.filter (fun r => r.k = o.k)).map Row.sales) ∧
      IsMaxOf o.deposit_revenue ((rows.filter (fun r => r.k = o.k)).map Row.deposit_revenue) ∧
      IsMaxOf o.sale_revenue ((rows.filter (fun r => r.k = o.k)).map Row.sale_revenue) ∧
      ∃ r ∈ rows.filter (fun r => r.k = o.k),
        o.campaign = r.campaign ∧ o.country = r.country ∧
          o.external_id = r.external_id ∧ o.creative_id = r.creative_id := by
  have hinv := agg_inv rows [] (by simp) (by simp)
  constructor
  · have hmapeq : (aggregate_rows_max rows).map Row.k =
        (rows.foldl aggStep []).map Prod.fst := by
      unfold aggregate_rows_max
      rw [List.map_map]
      exact List.map_congr_left (fun p hp => hinv.1 p hp)
    rw [hmapeq]
    exact hinv.2
  · intro o ho
    rcases List.mem_map.mp ho with ⟨p, hp, hpo⟩
    have hko : o.k = p.1 := by rw [← hpo]; exact hinv.1 p hp
    have hmem : (p.1, o) ∈ rows.foldl aggStep [] := by
      have hpe : p = (p.1, o) := by cases p; simp_all
      exact hpe ▸ hp
    have hget : dget (rows.foldl aggStep []) p.1 = some o :=
      dget_of_mem_nodup _ _ _ hmem hinv.2
    rw [dget_agg_foldl] at hget
    cases hgrp : rows.filter (fun r => r.k = p.1) with
    | nil =>
      rw [hgrp] at hget
      simp [dget] at hget
    | cons r0 rest =>
      rw [hgrp] at hget
      rw [List.foldl_cons] at hget
      have hstep : mergeInto (dget ([] : List (String × Row)) p.1) r0 = some r0 := rfl
      rw [hstep, foldl_mergeInto_some] at hget
      have homerge : o = mergeAll r0 rest := by
        injection hget with h
        exact h.symm
      have hdims := mergeAll_dims r0 rest
      simp only [hko, hgrp]
      refine ⟨?_, ?_, ?_, ?_, ?_, ?_, ?_⟩
      · rw [homerge, mergeAll_field Row.clicks (fun _ _ => rfl)]
        exact isMaxOf_foldl_max _ _
      · rw [homerge, mergeAll_field Row.uniq (fun _ _ => rfl)]
        exact isMaxOf_foldl_max _ _
      · rw [homerge, mergeAll_field Row.conversions (fun _ _ => rfl)]
        exact isMaxOf_foldl_max _ _
      · rw [homerge, mergeAll_field Row.sales (fun _ _ => rfl)]
        exact isMaxOf_foldl_max _ _
      · rw [homerge, mergeAll_field Row.deposit_revenue (fun _ _ => rfl)]
        exact isMaxOf_foldl_max _ _
      · rw [homerge, mergeAll_field Row.sale_revenue (fun _ _ => rfl)]
        exact isMaxOf_foldl_max _ _
      · refine ⟨r0, List.mem_cons_self _ _, ?_, ?_, ?_, ?_⟩ <;>
          rw [homerge]
        · exact hdims.2.1
        · exact hdims.2.2.1
        · exact hdims.2.2.2.1
        · exact hdims.2.2.2.2

/-! ### Concrete sample data for witnesses and counterexamples -/

/-- A concrete normalized row with the given conversions, sales and revenue
values, over a fixed dimension tuple. -/
def sampleRow (conv sal : Int) (dep srev : Rat) : Row :=
  { k := "camp|UA|ext|cr1", campaign := "camp", country := "UA", external_id := "ext",
    creative_id := "cr1", clicks := 10, uniq := 7, conversions := conv, sales := sal,
    deposit_revenue := dep, sale_revenue := srev }

/-! ### Claim theorems -/

/-- Claim C10: in every run of `main`, every message handed to the Notifier
precedes every state save in the event trace — the composed alert message is
sent before the new snapshot is written, so a failed save leaves the alerts
already delivered while the persisted state still holds the prior snapshot. -/
theorem C10_alerts_precede_save (prev : State) (today : String) (rows : List Row) :
    ∃ sends saves : List Event, main prev today rows = sends ++ saves ∧
      (∀ e ∈ sends, ∃ m, e = Event.send m) ∧ (∀ e ∈ saves, ∃ s, e = Event.save s) := by
  by_cases hne : rows = []
  · subst hne
    rw [main_empty]
    by_cases h : prev.rows = []
    · exact ⟨[Event.send Msg.noData], [], by simp [h], by simp, by simp⟩
    · exact ⟨[], [], by simp [h], by simp, by simp⟩
  · by_cases hd : prev.date = today
    · rw [main_compare prev today rows hne hd]
      refine ⟨_, [Event.save ⟨today, insertAll [] rows⟩], rfl, ?_, by simp⟩
      by_cases h : allAlerts prev.rows rows = [] <;> simp [h]
    · rw [main_baseline prev today rows hne hd]
      exact ⟨[], [Event.save ⟨today, insertAll [] rows⟩], by simp, by simp, by simp⟩

/-- Claim C7 (amended): when the fetch yields zero rows, no state write occurs
and no delta alert is sent; the `no data` notification is emitted exactly when
the prior snapshot's row map is empty — on every such run, not only the first
occurrence of the day. -/
theorem C7_empty_fetch (prev : State) (today : String) :
    main prev today [] = (if prev.rows = [] then [Event.send Msg.noData] else []) ∧
    savesOf (main prev today []) = [] ∧
    sentAlerts (main prev today []) = [] := by
  refine ⟨main_empty prev today, ?_, ?_⟩ <;>
    rw [main_empty] <;> by_cases h : prev.rows = [] <;> simp [h, savesOf, sentAlerts]

/-- Claim C7, counterexample to "only on the first such occurrence of the
day": with an empty today-dated snapshot, two consecutive empty-fetch runs on
the same day both emit the `no data` notification (the first run writes no
state, so the second run sees the same empty snapshot). -/
theorem C7_counterexample :
    main ⟨"2026-10-12", []⟩ "2026-10-12" [] = [Event.send Msg.noData] ∧
    stateAfter ⟨"2026-10-12", []⟩ (main ⟨"2026-10-12", []⟩ "2026-10-12" []) =
      ⟨"2026-10-12", []⟩ ∧
    main (stateAfter ⟨"2026-10-12", []⟩ (main ⟨"2026-10-12", []⟩ "2026-10-12" []))
        "2026-10-12" [] = [Event.send Msg.noData] :=
  ⟨rfl, rfl, rfl⟩

/-- Claim C2, counterexample: in a run where the loaded snapshot's date
differs from today's but the fetch is empty and the prior row map is empty,
a message (`no data`) is sent and nothing is persisted, so the persisted
snapshot is not the (empty) fetched row set dated today. -/
theorem C2_counterexample :
    ("2026-10-11" : String) ≠ "2026-10-12" ∧
    main ⟨"2026-10-11", []⟩ "2026-10-12" [] = [Event.send Msg.noData] ∧
    stateAfter ⟨"2026-10-11", []⟩ (main ⟨"2026-10-11", []⟩ "2026-10-12" []) ≠
      ⟨"2026-10-12", []⟩ :=
  ⟨by decide, rfl, by decide⟩

/-- Claim C2 (amended): for every run with a non-empty fetch in which the
loaded snapshot's date differs from today's date, the engine produces zero
alert decisions (no message is sent) and the persisted snapshot equals the
fetched-and-aggregated row set exactly, keyed by each row's key, with date set
to today. -/
theorem C2_baseline_reset (prev : State) (today : String) (rows : List Row)
    (hne : rows ≠ []) (hd : prev.date ≠ today) (hnd : (rows.map Row.k).Nodup) :
    main prev today rows = [Event.save ⟨today, insertAll [] rows⟩] ∧
    (∀ e ∈ main prev today rows, ∀ m : Msg, e ≠ Event.send m) ∧
    (∀ r ∈ rows, dget (insertAll [] rows) r.k = some r) ∧
    (∀ k : String, (dget (insertAll [] rows) k).isSome ↔ ∃ r ∈ rows, r.k = k) := by
  refine ⟨main_baseline prev today rows hne hd, ?_, ?_, ?_⟩
  · rw [main_baseline prev today rows hne hd]
    intro e he m
    simp at he
    simp [he]
  · exact fun r hr => dget_insertAll_self [] rows r hr hnd
  · intro k
    rw [isSome_dget_insertAll]
    simp [dget]

/-- Witness for the amended claim C2 at a concrete input. -/
theorem C2_baseline_reset_witness :
    ([sampleRow 1 0 0 0] ≠ ([] : List Row)) ∧ ("2026-10-11" : String) ≠ "2026-10-12" ∧
    main ⟨"2026-10-11", []⟩ "2026-10-12" [sampleRow 1 0 0 0] =
      [Event.save ⟨"2026-10-12", insertAll [] [sampleRow 1 0 0 0]⟩] ∧
    dget (insertAll [] [sampleRow 1 0 0 0]) "camp|UA|ext|cr1" = some (sampleRow 1 0 0 0) :=
  ⟨by simp, by decide,
   (C2_baseline_reset ⟨"2026-10-11", []⟩ "2026-10-12" [sampleRow 1 0 0 0]
     (by simp) (by decide) (by simp [sampleRow])).1,
   (C2_baseline_reset ⟨"2026-10-11", []⟩ "2026-10-12" [sampleRow 1 0 0 0]
     (by simp) (by decide) (by simp [sampleRow])).2.2.1 (sampleRow 1 0 0 0) (by simp)⟩

/-- Claim C8, counterexample to "no message is sent": with a today-dated prior
snapshot whose row map is empty and a fetched row set identical to it (both
empty), the run sends the `no data` message. -/
theorem C8_counterexample :
    main ⟨"2026-10-12", []⟩ "2026-10-12" [] = [Event.send Msg.noData] ∧
    Event.send Msg.noData ∈ main ⟨"2026-10-12", []⟩ "2026-10-12" [] :=
  ⟨rfl, by rw [main_empty]; simp⟩

/-- Claim C8 (amended): for every today-dated prior snapshot and every
non-empty fetched row set identical to the snapshot's rows, re-running the
compare produces zero alert decisions and no message is sent (only the
unchanged snapshot is re-saved). -/
theorem C8_idempotent (prev : State) (today : String) (rows : List Row)
    (hne : rows ≠ []) (hd : prev.date = today)
    (hid : ∀ r ∈ rows, dget prev.rows r.k = some r) :
    main prev today rows = [Event.save ⟨today, insertAll [] rows⟩] ∧
    sentAlerts (main prev today rows) = [] ∧
    (∀ e ∈ main prev today rows, ∀ m : Msg, e ≠ Event.send m) := by
  have hall : allAlerts prev.rows rows = [] := by
    simp only [allAlerts, List.append_eq_nil, List.flatMap_eq_nil_iff]
    constructor
    · intro r hr
      simp [convAlertsFor, hid r hr]
    · intro r hr
      simp [saleAlertsFor, hid r hr]
  have hmain : main prev today rows = [Event.save ⟨today, insertAll [] rows⟩] := by
    rw [main_compare prev today rows hne hd, hall]
    simp
  refine ⟨hmain, ?_, ?_⟩
  · rw [hmain]; simp [sentAlerts]
  · rw [hmain]
    intro e he m
    simp at he
    simp [he]

/-- Witness for the amended claim C8 at a concrete input. -/
theorem C8_idempotent_witness :
    ([sampleRow 2 1 5 0] ≠ ([] : List Row)) ∧
    dget [("camp|UA|ext|cr1", sampleRow 2 1 5 0)] (sampleRow 2 1 5 0).k =
      some (sampleRow 2 1 5 0) ∧
    main ⟨"2026-10-12", [("camp|UA|ext|cr1", sampleRow 2 1 5 0)]⟩ "2026-10-12"
        [sampleRow 2 1 5 0] =
      [Event.save ⟨"2026-10-12", insertAll [] [sampleRow 2 1 5 0]⟩] ∧
    sentAlerts (main ⟨"2026-10-12", [("camp|UA|ext|cr1", sampleRow 2 1 5 0)]⟩ "2026-10-12"
        [sampleRow 2 1 5 0]) = [] :=
  ⟨by simp, by simp [dget, sampleRow],
   (C8_idempotent ⟨"2026-10-12", [("camp|UA|ext|cr1", sampleRow 2 1 5 0)]⟩ "2026-10-12"
     [sampleRow 2 1 5 0] (by simp) rfl
     (by intro r hr; simp at hr; simp [hr, dget, sampleRow])).1,
   (C8_idempotent ⟨"2026-10-12", [("camp|UA|ext|cr1", sampleRow 2 1 5 0)]⟩ "2026-10-12"
     [sampleRow 2 1 5 0] (by simp) rfl
     (by intro r hr; simp at hr; simp [hr, dget, sampleRow])).2.1⟩

/-- A second concrete row over a different dimension tuple (hence a different
key) than `sampleRow`. -/
def sampleRowB (conv sal : Int) : Row :=
  { k := "campB|DE|ext2|cr2", campaign := "campB", country := "DE", external_id := "ext2",
    creative_id := "cr2", clicks := 3, uniq := 2, conversions := conv, sales := sal,
    deposit_revenue := 0, sale_revenue := 0 }

/-- Claim C9: in COMPARE mode with a non-empty fetch, the persisted snapshot's
key set equals exactly the set of fetched keys; every key absent from the
fetch (in particular every prior-only key) is dropped from state; and if such
a key reappears later the same day with positive conversions it is treated as
brand-new and triggers a from-zero conversion alert. -/
theorem C9_keyset_replacement (prev : State) (today : String) (rows : List Row)
    (hne : rows ≠ []) (hd : prev.date = today) :
    savesOf (main prev today rows) = [⟨today, insertAll [] rows⟩] ∧
    (∀ k : String, (dget (insertAll [] rows) k).isSome ↔ ∃ r ∈ rows, r.k = k) ∧
    (∀ k : String, (∀ r ∈ rows, r.k ≠ k) → dget (insertAll [] rows) k = none) ∧
    (∀ r2 : Row, (∀ r ∈ rows, r.k ≠ r2.k) → 0 < r2.conversions →
      Alert.conv r2.campaign r2.country r2.external_id r2.creative_id 0 r2.conversions
        ∈ sentAlerts (main ⟨today, insertAll [] rows⟩ today [r2])) := by
  refine ⟨savesOf_main_compare prev today rows hne hd, ?_, ?_, ?_⟩
  · intro k
    rw [isSome_dget_insertAll]
    simp [dget]
  · intro k h
    rw [dget_insertAll_of_ne [] rows k h]
    rfl
  · intro r2 habs hpos
    have hnone : dget (insertAll [] rows) r2.k = none := by
      rw [dget_insertAll_of_ne [] rows r2.k habs]
      rfl
    rw [sentAlerts_main_compare _ _ _ (by simp) rfl]
    simp [allAlerts, convAlertsFor, hnone, hpos]

/-- Witness for claim C9 at a concrete input: the prior-only key
`campB|DE|ext2|cr2` is dropped by a fetch that no longer contains it, and its
reappearance the same day raises a from-zero conversion alert. -/
theorem C9_keyset_replacement_witness :
    ([sampleRow 1 0 0 0] ≠ ([] : List Row)) ∧
    savesOf (main ⟨"2026-10-12", [("campB|DE|ext2|cr2", sampleRowB 4 0)]⟩ "2026-10-12"
        [sampleRow 1 0 0 0]) = [⟨"2026-10-12", insertAll [] [sampleRow 1 0 0 0]⟩] ∧
    dget (insertAll [] [sampleRow 1 0 0 0]) "campB|DE|ext2|cr2" = none ∧
    Alert.conv ("campB") ("DE") ("ext2") ("cr2") 0 5 ∈
      sentAlerts (main ⟨"2026-10-12", insertAll [] [sampleRow 1 0 0 0]⟩ "2026-10-12"
        [sampleRowB 5 0]) :=
  ⟨by simp,
   (C9_keyset_replacement ⟨"2026-10-12", [("campB|DE|ext2|cr2", sampleRowB 4 0)]⟩
     "2026-10-12" [sampleRow 1 0 0 0] (by simp) rfl).1,
   (C9_keyset_replacement ⟨"2026-10-12", [("campB|DE|ext2|cr2", sampleRowB 4 0)]⟩
     "2026-10-12" [sampleRow 1 0 0 0] (by simp) rfl).2.2.1 ("campB|DE|ext2|cr2") (by decide),
   (C9_keyset_replacement ⟨"2026-10-12", [("campB|DE|ext2|cr2", sampleRowB 4 0)]⟩
     "2026-10-12" [sampleRow 1 0 0 0] (by simp) rfl).2.2.2 (sampleRowB 5 0) (by decide)
     (by decide)⟩

/-- Modelled from the spec: the monotonic clamping function
`clamp(observed, prior) = max(observed, prior - tolerance)` of §4.4 step 3.
No clamping of any kind appears in the compare loop of `main` in the code. -/
def clampSpec (observed prior tolerance : Rat) : Rat :=
  max observed (prior - tolerance)

/-- Claim C1, counterexample: with a prior conversion count of `5` and an
observed count of `3`, the persisted row keeps the observed `3`, which is
below `prior - tolerance` for tolerance `1e-6` and differs from the clamped
value — the baseline does shrink. -/
theorem C1_counterexample :
    savesOf (main ⟨"2026-10-12", [("camp|UA|ext|cr1", sampleRow 5 0 0 0)]⟩ "2026-10-12"
        [sampleRow 3 0 0 0]) =
      [⟨"2026-10-12", [("camp|UA|ext|cr1", sampleRow 3 0 0 0)]⟩] ∧
    (((sampleRow 3 0 0 0).conversions : Rat) < 5 - 1 / 1000000) ∧
    ((sampleRow 3 0 0 0).conversions : Rat) ≠ clampSpec 3 5 (1 / 1000000) := by
  refine ⟨rfl, by norm_num [sampleRow], ?_⟩
  have h : clampSpec 3 5 (1 / 1000000) = 5 - 1 / 1000000 :=
    max_eq_right (by norm_num)
  rw [h]
  norm_num [sampleRow]

/-- Claim C1 (amended): in COMPARE mode no monotonic clamping is applied at
all — for every fetched row the value written to the new snapshot is the
observed row itself, verbatim, so an observed value transiently lower than the
prior does shrink the persisted baseline (deltas are computed directly from
observed minus prior, see C4). -/
theorem C1_no_clamping (prev : State) (today : String) (rows : List Row)
    (hne : rows ≠ []) (hd : prev.date = today) (hnd : (rows.map Row.k).Nodup) :
    savesOf (main prev today rows) = [⟨today, insertAll [] rows⟩] ∧
    ∀ r ∈ rows, dget (insertAll [] rows) r.k = some r :=
  ⟨savesOf_main_compare prev today rows hne hd,
   fun r hr => dget_insertAll_self [] rows r hr hnd⟩

/-- Witness for the amended claim C1 at a concrete input: the observed row
with conversions `3` is persisted verbatim over a prior of `5`. -/
theorem C1_no_clamping_witness :
    ([sampleRow 3 0 0 0] ≠ ([] : List Row)) ∧
    savesOf (main ⟨"2026-10-12", [("camp|UA|ext|cr1", sampleRow 5 0 0 0)]⟩ "2026-10-12"
        [sampleRow 3 0 0 0]) = [⟨"2026-10-12", insertAll [] [sampleRow 3 0 0 0]⟩] ∧
    dget (insertAll [] [sampleRow 3 0 0 0]) "camp|UA|ext|cr1" = some (sampleRow 3 0 0 0) :=
  ⟨by simp,
   (C1_no_clamping ⟨"2026-10-12", [("camp|UA|ext|cr1", sampleRow 5 0 0 0)]⟩ "2026-10-12"
     [sampleRow 3 0 0 0] (by simp) rfl (by simp)).1,
   (C1_no_clamping ⟨"2026-10-12", [("camp|UA|ext|cr1", sampleRow 5 0 0 0)]⟩ "2026-10-12"
     [sampleRow 3 0 0 0] (by simp) rfl (by simp)).2 (sampleRow 3 0 0 0) (by simp)⟩

/-- The prior conversion count the compare loop uses for a fetched row:
`as_int(old.get("conversions"))` when the key is present in the prior
snapshot, `0` (the else-branch reference point) when it is absent. -/
def oldConvOf (prev_rows : List (String × Row)) (r : Row) : Int :=
  match dget prev_rows r.k with
  | some old => old.conversions
  | none => 0

/-- The prior sale count the compare loop uses for a fetched row. -/
def oldSalesOf (prev_rows : List (String × Row)) (r : Row) : Int :=
  match dget prev_rows r.k with
  | some old => old.sales
  | none => 0

/-- Claim C4, counterexample: a conversion delta of `-1` has absolute value
`1 > EPS = 0.009`, yet the run produces no alert at all — the code alerts only
on strictly positive deltas, never on `|d| > EPS` with `d < 0`. -/
theorem C4_counterexample :
    |((4 : Rat) - 5)| > EPS ∧
    sentAlerts (main ⟨"2026-10-12", [("camp|UA|ext|cr1", sampleRow 5 2 0 0)]⟩ "2026-10-12"
        [sampleRow 4 2 0 0]) = [] ∧
    main ⟨"2026-10-12", [("camp|UA|ext|cr1", sampleRow 5 2 0 0)]⟩ "2026-10-12"
        [sampleRow 4 2 0 0] =
      [Event.save ⟨"2026-10-12", [("camp|UA|ext|cr1", sampleRow 4 2 0 0)]⟩] :=
  ⟨by norm_num [EPS], rfl, rfl⟩

/-- Claim C4 (amended): in COMPARE mode the alert blocks are exactly the
per-row conversion and sale blocks; for each count-like metric a block is
produced iff the delta against the prior value (or against `0` for an absent
key) is strictly positive — for integer deltas this coincides with
`delta > EPS`, but a negative delta of any magnitude never alerts. -/
theorem C4_alert_threshold (prev : State) (today : String) (rows : List Row)
    (hne : rows ≠ []) (hd : prev.date = today) :
    sentAlerts (main prev today rows) =
      rows.flatMap (convAlertsFor prev.rows) ++ rows.flatMap (saleAlertsFor prev.rows) ∧
    (∀ r : Row, convAlertsFor prev.rows r ≠ [] ↔ 0 < r.conversions - oldConvOf prev.rows r) ∧
    (∀ r : Row, saleAlertsFor prev.rows r ≠ [] ↔ 0 < r.sales - oldSalesOf prev.rows r) ∧
    (∀ d : Int, 0 < d ↔ EPS < (d : Rat)) := by
  refine ⟨by rw [sentAlerts_main_compare prev today rows hne hd]; rfl, ?_, ?_, ?_⟩
  · intro r
    unfold convAlertsFor oldConvOf
    cases h : dget prev.rows r.k with
    | some old => by_cases hc : r.conversions - old.conversions > 0 <;> simp [hc]
    | none => by_cases hc : r.conversions > 0 <;> simp [hc]
  · intro r
    unfold saleAlertsFor oldSalesOf
    cases h : dget prev.rows r.k with
    | some old => by_cases hc : r.sales - old.sales > 0 <;> simp [hc]
    | none => by_cases hc : r.sales > 0 <;> simp [hc]
  · intro d
    constructor
    · intro hd0
      have h1 : (1 : Rat) ≤ (d : Rat) := by exact_mod_cast hd0
      have h2 : EPS < 1 := by norm_num [EPS]
      linarith
    · intro hE
      by_contra hc
      push_neg at hc
      have h1 : (d : Rat) ≤ 0 := by exact_mod_cast hc
      have h2 : (0 : Rat) < EPS := by norm_num [EPS]
      linarith

/-- Witness for the amended claim C4 at a concrete input. -/
theorem C4_alert_threshold_witness :
    ([sampleRow 4 2 0 0] ≠ ([] : List Row)) ∧
    sentAlerts (main ⟨"2026-10-12", [("camp|UA|ext|cr1", sampleRow 5 2 0 0)]⟩ "2026-10-12"
        [sampleRow 4 2 0 0]) =
      [sampleRow 4 2 0 0].flatMap (convAlertsFor [("camp|UA|ext|cr1", sampleRow 5 2 0 0)]) ++
        [sampleRow 4 2 0 0].flatMap (saleAlertsFor [("camp|UA|ext|cr1", sampleRow 5 2 0 0)]) :=
  ⟨by simp,
   (C4_alert_threshold ⟨"2026-10-12", [("camp|UA|ext|cr1", sampleRow 5 2 0 0)]⟩ "2026-10-12"
     [sampleRow 4 2 0 0] (by simp) rfl).1⟩

/-- Modelled from the spec: selecting a revenue value from the primary and
secondary revenue fields "with a defined precedence order, first non-zero
wins" (§4.4 step 5). The code instead takes `max(deposit_revenue,
sale_revenue)` on each side. -/
def firstNonZero (primary secondary : Rat) : Rat :=
  if primary ≠ 0 then primary else secondary

/-- Claim C5, counterexample: with prior revenues `(5, 10)` and new revenues
`(20, 8)`, the reported revenue delta is `max(20,8) - max(5,10) = 10`, which
matches neither first-non-zero precedence order (`20 - 5 = 15` nor
`8 - 10 = -2`) — revenue selection is a maximum, not a precedence rule. -/
theorem C5_counterexample :
    sentAlerts (main ⟨"2026-10-12", [("camp|UA|ext|cr1", sampleRow 0 1 5 10)]⟩ "2026-10-12"
        [sampleRow 0 2 20 8]) = [Alert.sale ("camp") ("UA") ("ext") ("cr1") 1 2 10] ∧
    (10 : Rat) ≠ firstNonZero 20 8 - firstNonZero 5 10 ∧
    (10 : Rat) ≠ firstNonZero 8 20 - firstNonZero 10 5 := by
  refine ⟨?_, ?_, ?_⟩
  · have h : sentAlerts (main ⟨"2026-10-12", [("camp|UA|ext|cr1", sampleRow 0 1 5 10)]⟩
        "2026-10-12" [sampleRow 0 2 20 8]) =
        [Alert.sale ("camp") ("UA") ("ext") ("cr1") 1 2 (max (20 : Rat) 8 - max 5 10)] := rfl
    rw [h]
    norm_num
  · norm_num [firstNonZero]
  · norm_num [firstNonZero]

/-- Claim C5 (amended): every sale alert for a key present in the prior
snapshot reports the revenue delta `new_revenue - old_revenue`, where each
side's revenue is `max(deposit_revenue, sale_revenue)` of the corresponding
row — the larger of the two revenue fields, not a first-non-zero precedence
selection. -/
theorem C5_revenue_delta (prev : State) (today : String) (rows : List Row)
    (hne : rows ≠ []) (hd : prev.date = today) :
    ∀ c co ex cr : String, ∀ os ns : Int, ∀ dRev : Rat,
      Alert.sale c co ex cr os ns dRev ∈ sentAlerts (main prev today rows) →
      ∃ r ∈ rows, ∃ old : Row, dget prev.rows r.k = some old ∧ old.sales < r.sales ∧
        os = old.sales ∧ ns = r.sales ∧
        dRev = max r.deposit_revenue r.sale_revenue -
          max old.deposit_revenue old.sale_revenue := by
  intro c co ex cr os ns dRev hmem
  rw [sentAlerts_main_compare prev today rows hne hd] at hmem
  unfold allAlerts at hmem
  rcases List.mem_append.mp hmem with h | h
  · exfalso
    rcases List.mem_flatMap.mp h with ⟨r, hr, hin⟩
    unfold convAlertsFor at hin
    cases hg : dget prev.rows r.k with
    | some old =>
      rw [hg] at hin
      by_cases hc : r.conversions - old.conversions > 0 <;> simp [hc] at hin
    | none =>
      rw [hg] at hin
      by_cases hc : r.conversions > 0 <;> simp [hc] at hin
  · rcases List.mem_flatMap.mp h with ⟨r, hr, hin⟩
    unfold saleAlertsFor at hin
    cases hg : dget prev.rows r.k with
    | some old =>
      rw [hg] at hin
      by_cases hc : r.sales - old.sales > 0
      · simp only [hc, if_true, List.mem_singleton, Alert.sale.injEq] at hin
        exact ⟨r, hr, old, hg, sub_pos.mp hc, hin.2.2.2.2.1, hin.2.2.2.2.2.1,
          hin.2.2.2.2.2.2⟩
      · simp [hc] at hin
    | none =>
      rw [hg] at hin
      by_cases hc : r.sales > 0 <;> simp [hc] at hin

/-- Witness for the amended claim C5 at a concrete input. -/
theorem C5_revenue_delta_witness :
    ([sampleRow 0 2 20 8] ≠ ([] : List Row)) ∧
    (∃ r ∈ [sampleRow 0 2 20 8], ∃ old : Row,
      dget [("camp|UA|ext|cr1", sampleRow 0 1 5 10)] r.k = some old ∧
      old.sales < r.sales ∧ (1 : Int) = old.sales ∧ (2 : Int) = r.sales ∧
      max (20 : Rat) 8 - max 5 10 =
        max r.deposit_revenue r.sale_revenue - max old.deposit_revenue old.sale_revenue) :=
  ⟨by simp,
   C5_revenue_delta ⟨"2026-10-12", [("camp|UA|ext|cr1", sampleRow 0 1 5 10)]⟩ "2026-10-12"
     [sampleRow 0 2 20 8] (by simp) rfl ("camp") ("UA") ("ext") ("cr1") 1 2
     (max (20 : Rat) 8 - max 5 10)
     (by
       have h : sentAlerts (main ⟨"2026-10-12", [("camp|UA|ext|cr1", sampleRow 0 1 5 10)]⟩
           "2026-10-12" [sampleRow 0 2 20 8]) =
           [Alert.sale ("camp") ("UA") ("ext") ("cr1") 1 2 (max (20 : Rat) 8 - max 5 10)] := rfl
       rw [h]
       exact List.mem_singleton.mpr rfl)⟩

/-- The possible outcomes of the HTTP read inside `load_state`, as far as the
function observes them. `raised` covers a transport-level exception from
`requests.get` (or a non-JSON body making `r.json()` raise), which
`load_state` does not catch. Otherwise the response carries a status code and
the gist's file map: per filename, `none` models a missing `content` field,
`some none` a `content` string on which `json.loads` raises (malformed
payload), and `some (some st)` a stored payload that parses to `st`. -/
inductive GistFetch where
  /-- The HTTP read itself raised an exception. -/
  | raised
  /-- A response was obtained, with its status code and file map. -/
  | resp (status : Nat) (files : List (String × Option (Option State)))

/-- Model of `load_state()`: returns the parsed state from a 200 response whose target
file has parseable content; returns the default empty today-dated snapshot
`{"date": today, "rows": {}}` on a non-200 status, a missing file, a missing
`content` field, or content on which `json.loads` raises; and propagates
(`Except.error`) an exception raised by the HTTP read itself, which the
function body does not guard. -/
def load_state (today fname : String) (f : GistFetch) : Except Unit State :=
  match f with
  | GistFetch.raised => Except.error ()
  | GistFetch.resp status files =>
    if status = 200 then
      match dget files fname with
      | some (some (some st)) => Except.ok st
      | _ => Except.ok ⟨today, []⟩
    else Except.ok ⟨today, []⟩

/-- Claim C6, counterexample: when the HTTP read raises (a read error —
network failure or timeout), `load_state` propagates the error instead of
returning the default empty today-dated snapshot. -/
theorem C6_counterexample :
    load_state ("2026-10-12") ("keitaro_favourite_state.json") GistFetch.raised =
      Except.error () ∧
    load_state ("2026-10-12") ("keitaro_favourite_state.json") GistFetch.raised ≠
      Except.ok ⟨"2026-10-12", []⟩ :=
  ⟨rfl, fun h => Except.noConfusion h⟩

/-- Claim C6 (amended): for every obtained response — non-success status,
missing backing file, missing `content` field, or malformed/corrupt stored
payload — `load_state` returns the default empty snapshot dated today instead
of propagating an error; only an exception raised by the HTTP read itself
(before any response is obtained) propagates. -/
theorem C6_load_fails_soft (today fname : String) (status : Nat)
    (files : List (String × Option (Option State)))
    (h : status ≠ 200 ∨ ∀ st : State, dget files fname ≠ some (some (some st))) :
    load_state today fname (GistFetch.resp status files) = Except.ok ⟨today, []⟩ := by
  unfold load_state
  by_cases hs : status = 200
  · rcases h with h | h
    · exact absurd hs h
    · subst hs
      simp only [if_pos rfl]
      cases hg : dget files fname with
      | none => rfl
      | some c =>
        cases c with
        | none => rfl
        | some p =>
          cases p with
          | none => rfl
          | some st => exact absurd hg (h st)
  · simp [hs]

/-- Witness for the amended claim C6 at a concrete input: a 500 response
yields the default snapshot. -/
theorem C6_load_fails_soft_witness :
    ((500 : Nat) ≠ 200 ∨ ∀ st : State,
      dget ([] : List (String × Option (Option State))) "keitaro_favourite_state.json" ≠
        some (some (some st))) ∧
    load_state ("2026-10-12") ("keitaro_favourite_state.json") (GistFetch.resp 500 []) =
      Except.ok ⟨"2026-10-12", []⟩ :=
  ⟨Or.inl (by decide),
   C6_load_fails_soft ("2026-10-12") ("keitaro_favourite_state.json") 500 []
     (Or.inl (by decide))⟩

end KtBot
